import Mathlib

/-!
Shallow embedding of `slumber/__init__.py` (a Python 2 REST client) together
with the Python 2.7 standard-library helpers it calls (`urlparse.urlsplit`,
`urlparse.urlunsplit`, `posixpath.join`, `urllib.urlencode`).

Python strings are modelled as `List Char`; Python `None`-able values as
`Option`; Python exceptions as an `Except` error type.
-/

deriving instance DecidableEq for Except

/-- Python strings are modelled as lists of characters. -/
abbrev Str := List Char

/-- Convenience: a Lean string literal viewed as a Python string. -/
def str (s : String) : Str := s.data

/-- Python exceptions that the embedded code can raise. -/
inductive PyErr
  /-- Python `ValueError` (raised by `urlsplit` on mismatched IPv6 brackets). -/
  | valueError
  /-- Python `TypeError` (unexpected or duplicate keyword argument). -/
  | typeError
  /-- Python `KeyError` (missing mapping key, e.g. a missing response header). -/
  | keyError
  /-- Python `AttributeError` (reserved-name attribute access). -/
  | attributeError
deriving DecidableEq

/-- Model of `urlparse.scheme_chars`: characters valid in a URL scheme. -/
def scheme_chars : Str :=
  str "abcdefghijklmnopqrstuvwxyzABCDEFGHIJKLMNOPQRSTUVWXYZ0123456789+-."

/-- True when a character is not one of the netloc delimiters `/`, `?`, `#`. -/
def notDelim (c : Char) : Bool := !(c = '/' || c = '?' || c = '#')

/-- Model of `urlparse._splitnetloc(url, start)`: split off the network location at the
first of `/`, `?`, `#` at or after `start`.  CPython computes the minimum of the
three `find` results; taking the longest delimiter-free run after `start` is the
same thing. -/
def splitnetloc (url : Str) (start : Nat) : Str × Str :=
  let rest := url.drop start
  (rest.takeWhile notDelim, rest.dropWhile notDelim)

/-- Python `s.split(sep, 1)` restricted to the case `sep in s`: the part before
the first `sep` and the part after it. -/
def splitOnce (sep : Char) (l : Str) : Str × Str :=
  (l.takeWhile (· ≠ sep), (l.dropWhile (· ≠ sep)).drop 1)

/-- Python `s.find(c)`: the index of the first occurrence of `c`, if any
(`none` models the `-1` of the original). -/
def findChar (c : Char) : Str → Option Nat
  | [] => none
  | x :: xs => if x = c then some 0 else (findChar c xs).map (· + 1)

/-- First phase of `urlparse.urlsplit`: detect and strip a scheme.  Mirrors
CPython 2.7: `i = url.find(':')`; if `i > 0` and the prefix is exactly `http`
the fast path accepts it; otherwise the prefix must consist of scheme
characters and the remainder must not be a bare port number. -/
def splitScheme (url : Str) : Str × Str :=
  match findChar ':' url with
  | some i =>
    if 0 < i then
      if url.take i = str "http" then (str "http", url.drop (i+1))
      else if (∀ c ∈ url.take i, c ∈ scheme_chars) ∧
              (url.drop (i+1) = [] ∨ ∃ c ∈ url.drop (i+1), c.isDigit = false) then
        ((url.take i).map Char.toLower, url.drop (i+1))
      else ([], url)
    else ([], url)
  | none => ([], url)

/-- Model of `urlparse.urlsplit(url)` (with `allow_fragments=True`): split a URL into
`(scheme, netloc, path, query, fragment)`.  Raises `ValueError` on a netloc
containing exactly one of `[`, `]`. -/
def urlsplit (url : Str) : Except PyErr (Str × Str × Str × Str × Str) :=
  let (scheme, url1) := splitScheme url
  if url1.take 2 = str "//" then
    let (netloc, url2) := splitnetloc url1 2
    if ('[' ∈ netloc ∧ ']' ∉ netloc) ∨ (']' ∈ netloc ∧ '[' ∉ netloc) then
      .error .valueError
    else
      let (url3, fragment) :=
        if '#' ∈ url2 then splitOnce '#' url2 else (url2, [])
      let (url4, query) :=
        if '?' ∈ url3 then splitOnce '?' url3 else (url3, [])
      .ok (scheme, netloc, url4, query, fragment)
  else
    let (url3, fragment) :=
      if '#' ∈ url1 then splitOnce '#' url1 else (url1, [])
    let (url4, query) :=
      if '?' ∈ url3 then splitOnce '?' url3 else (url3, [])
    .ok (scheme, [], url4, query, fragment)

/-- Model of `urlparse.urlunsplit((scheme, netloc, url, query, fragment))`. -/
def urlunsplit (scheme netloc url query fragment : Str) : Str :=
  let url := if netloc ≠ [] ∨ (url ≠ [] ∧ url.take 2 = str "//") then
      str "//" ++ netloc ++
        (if url ≠ [] ∧ url.take 1 ≠ str "/" then '/' :: url else url)
    else url
  let url := if scheme ≠ [] then scheme ++ ':' :: url else url
  let url := if query ≠ [] then url ++ '?' :: query else url
  if fragment ≠ [] then url ++ '#' :: fragment else url

/-- Model of `posixpath.join(path, *args)`: successively append each segment, replacing
the path when the segment is absolute and inserting a single `/` only when the
accumulated path is nonempty and does not already end in `/`. -/
def posixpath_join (path : Str) (args : List Str) : Str :=
  args.foldl (fun path b =>
    if b.take 1 = str "/" then b
    else if path = [] ∨ path.getLast? = some '/' then path ++ b
    else path ++ '/' :: b) path

/-- Embedding of `slumber.url_join(base, *args)`: split `base`, POSIX-join the segments onto
its path, and reassemble.  The caller passes each segment already converted by
`str(...)`. -/
def url_join (base : Str) (args : List Str) : Except PyErr Str :=
  match urlsplit base with
  | .error e => .error e
  | .ok (scheme, netloc, path, query, fragment) =>
    .ok (urlunsplit scheme netloc (posixpath_join path args) query fragment)

example :
    url_join (str "http://example.com/api/") [str "items"] =
      .ok (str "http://example.com/api/items") := by decide

example :
    url_join (str "http://example.com/api?x=1#f") [str "a", str "b"] =
      .ok (str "http://example.com/api/a/b?x=1#f") := by decide

example :
    url_join (str "http://example.com") [str "a"] =
      .ok (str "http://example.com/a") := by decide

/-! ## `urllib` query-string encoding (Python 2.7) -/

/-- Model of `urllib.always_safe`: characters never percent-escaped. -/
def always_safe : Str :=
  str "ABCDEFGHIJKLMNOPQRSTUVWXYZabcdefghijklmnopqrstuvwxyz0123456789_.-"

/-- Upper-case hexadecimal digit for `n < 16`. -/
def hexDigit (n : Nat) : Char :=
  if n < 10 then Char.ofNat ('0'.toNat + n) else Char.ofNat ('A'.toNat + (n - 10))

/-- Percent-escape of one byte, `'%%%02X' % i` in Python.  Characters are
modelled as bytes (Python 2 `urllib` operates on byte strings). -/
def quoteChar (c : Char) : Str :=
  ['%', hexDigit (c.toNat / 16 % 16), hexDigit (c.toNat % 16)]

/-- Model of `urllib.quote(s, safe)`: keep characters in `always_safe ++ safe`,
percent-escape the rest. -/
def quote (s : Str) (safe : Str) : Str :=
  s.foldr (fun c acc => (if c ∈ always_safe ++ safe then [c] else quoteChar c) ++ acc) []

/-- Model of `urllib.quote_plus(s)` (with `safe=''`, as `urlencode` calls it):
when `s` contains a space, quote with space kept safe and then turn spaces into
`+`; otherwise plain `quote`. -/
def quote_plus (s : Str) : Str :=
  if ' ' ∈ s then (quote s (str " ")).map (fun c => if c = ' ' then '+' else c)
  else quote s []

/-- Model of `urllib.urlencode(query)` on a dict: `k=v` pairs, each side
`quote_plus`-escaped, joined with `&`.  The Python dict's (unspecified)
iteration order is modelled by the association-list order; keys and values are
the `str(...)` renderings the Python code passes in. -/
def urlencode (kwargs : List (Str × Str)) : Str :=
  List.intercalate (str "&") (kwargs.map (fun kv => quote_plus kv.1 ++ '=' :: quote_plus kv.2))

/-! ## HTTP transport boundary -/

/-- An HTTP response descriptor (httplib2 `Response`): an integer status plus
dict-style access to headers such as `location`. -/
structure HResp where
  status : Nat
  headers : List (Str × Str)
deriving DecidableEq

/-- Dict-style header access `resp[k]`; a missing key raises `KeyError`. -/
def HResp.getHeader (r : HResp) (k : Str) : Except PyErr Str :=
  match r.headers.lookup k with
  | some v => .ok v
  | none => .error .keyError

/-- Errors raised by the embedded slumber code: the exception classes of
`slumber.exceptions` (each carrying its message, the response and the body)
plus plain Python exceptions. -/
inductive SErr
  | py (e : PyErr)
  | httpClientError (message : Str) (response : HResp) (content : Str)
  | httpServerError (message : Str) (response : HResp) (content : Str)
  | improperlyConfigured (message : Str)
deriving DecidableEq

/-- The resolved `_meta` of a `Resource`: its three non-underscore settings. -/
structure RMeta where
  base_url : Str
  format : Str
  authentication : Option (List (Str × Str))
deriving DecidableEq

/-- Modelled from the spec: the serialization collaborator
(`slumber.serialize.Serializer`, not part of the embedded module) offers
`dumps(value) -> bytes`.  Its output is opaque to the core, so it is modelled
as an injective tagging of the format and the payload. -/
def serializer_dumps (format : Str) (data : Str) : Str :=
  str "dumps[" ++ format ++ str "](" ++ data ++ str ")"

/-- Modelled from the spec: the serialization collaborator's
`get_content_type() -> string`, opaque to the core. -/
def serializer_content_type (format : Str) : Str :=
  str "content-type[" ++ format ++ str "]"

/-- The observable HTTP request handed to the transport collaborator by
`Resource._request`. -/
structure SentRequest where
  url : Str
  method : Str
  body : Option Str
  headers : List (Str × Str)
deriving DecidableEq

/-- URL/body construction of `Resource._request` (lines 140-152): pop the
reserved `body` key from the keyword arguments, URL-encode the remainder onto
`base_url` after `?`, and attach the serializer's content type. -/
def Resource_buildRequest (m : RMeta) (method : Str) (kwargs : List (Str × Str)) : SentRequest :=
  let body := kwargs.lookup (str "body")
  let rest := kwargs.filter (fun kv => !(kv.1 == str "body"))
  let url := if rest.isEmpty then m.base_url else m.base_url ++ '?' :: urlencode rest
  { url := url, method := method, body := body,
    headers := [(str "content-type", serializer_content_type m.format)] }

/-- Embedding of `Resource._request`: build the request, then dispatch on the
response status — `400..499` raises `HttpClientError`, `500..599` raises
`HttpServerError`, anything else is returned to the verb.  The response the
transport would produce is supplied as an argument (`resp`, `content`).  The
first component records what was sent. -/
def Resource_request (m : RMeta) (method : Str) (kwargs : List (Str × Str))
    (resp : HResp) (content : Str) : SentRequest × Except SErr (HResp × Str) :=
  let req := Resource_buildRequest m method kwargs
  (req,
   if 400 ≤ resp.status ∧ resp.status ≤ 499 then
     .error (.httpClientError
       (str "Client Error " ++ str (toString resp.status) ++ str ": " ++ req.url) resp content)
   else if 500 ≤ resp.status ∧ resp.status ≤ 599 then
     .error (.httpServerError
       (str "Server Error " ++ str (toString resp.status) ++ str ": " ++ req.url) resp content)
   else .ok (resp, content))

/-- Result of `Resource.get`: the serializer-decoded body (`decoded` applies
`loads` of the node's format symbolically), the raw body, or Python `None`. -/
inductive GetResult
  | decoded (format : Str) (content : Str)
  | raw (content : Str)
  | nothing
deriving DecidableEq

/-- Embedding of `Resource.get` (lines 161-171). -/
def Resource_get (m : RMeta) (kwargs : List (Str × Str))
    (resp : HResp) (content : Str) : Except SErr GetResult :=
  match (Resource_request m (str "GET") kwargs resp content).2 with
  | .error e => .error e
  | .ok (resp, content) =>
    if 200 ≤ resp.status ∧ resp.status ≤ 299 then
      if resp.status = 200 then .ok (.decoded m.format content)
      else .ok (.raw content)
    else .ok .nothing

/-- The keyword arguments `Resource.put`/`Resource.post` pass to `_request`:
`body=s.dumps(data)` together with the caller's keyword arguments. -/
def Resource_body_kwargs (m : RMeta) (data : Str) (kwargs : List (Str × Str)) :
    List (Str × Str) :=
  (str "body", serializer_dumps m.format data) :: kwargs

/-- Embedding of `Resource.put` (lines 188-198).  A caller-supplied `body`
keyword collides with the explicit `body=` argument: Python raises `TypeError`
before any request is made. -/
def Resource_put (m : RMeta) (data : Str) (kwargs : List (Str × Str))
    (resp : HResp) (content : Str) : Except SErr Bool :=
  match kwargs.lookup (str "body") with
  | some _ => .error (.py .typeError)
  | none =>
    match (Resource_request m (str "PUT") (Resource_body_kwargs m data kwargs) resp content).2 with
    | .error e => .error e
    | .ok (resp, _) =>
      if 200 ≤ resp.status ∧ resp.status ≤ 299 then
        if resp.status = 204 then .ok true else .ok true
      else .ok false

/-- Embedding of `Resource.delete` (lines 200-208). -/
def Resource_delete (m : RMeta) (kwargs : List (Str × Str))
    (resp : HResp) (content : Str) : Except SErr Bool :=
  match (Resource_request m (str "DELETE") kwargs resp content).2 with
  | .error e => .error e
  | .ok (resp, _) =>
    if 200 ≤ resp.status ∧ resp.status ≤ 299 then
      if resp.status = 204 then .ok true else .ok true
    else .ok false

/-! ## Address composition: `__getattr__` and `__call__` -/

/-- Result of `Resource.__call__`: either the very same object (`return self`,
not a copy) or a freshly constructed `Resource` whose merged `_meta` is the
given one.  (The constructor runs the `MetaMixin` merge; since `base_url`,
`format` and `authentication` all occur in `Resource.Meta`, the explicit
keyword arguments become exactly the new `_meta` — see the `MetaMixin`
development below.) -/
inductive CallResult
  | same
  | new (meta : RMeta)
deriving DecidableEq

/-- Embedding of `Resource.__call__(id=None, format=None, url_overide=None)`
(lines 109-135).  Note the source really spells the third parameter
`url_overide`.  `id` is passed through `str(...)` by `url_join`, so it is
modelled as the rendered string.  When `id` is given, `url_join` runs (and can
raise) even if `url_overide` later overwrites the result. -/
def Resource_call (m : RMeta) (id format url_overide : Option Str) :
    Except PyErr CallResult :=
  if id = none ∧ format = none ∧ url_overide = none then .ok .same
  else
    match id with
    | some i =>
      match url_join m.base_url [i] with
      | .error e => .error e
      | .ok joined =>
        .ok (.new { base_url := url_overide.getD joined,
                    format := format.getD m.format,
                    authentication := m.authentication })
    | none =>
      .ok (.new { base_url := url_overide.getD m.base_url,
                  format := format.getD m.format,
                  authentication := m.authentication })

/-- The keyword parameter names accepted by `Resource.__call__`. -/
def Resource_call_params : List Str := [str "id", str "format", str "url_overide"]

/-- Python keyword-argument application of `Resource.__call__`: a keyword not
among the declared parameter names raises `TypeError` (unexpected keyword
argument). -/
def Resource_call_kw (m : RMeta) (kwargs : List (Str × Str)) : Except PyErr CallResult :=
  if ∀ kv ∈ kwargs, kv.1 ∈ Resource_call_params then
    Resource_call m (kwargs.lookup (str "id")) (kwargs.lookup (str "format"))
      (kwargs.lookup (str "url_overide"))
  else .error .typeError

/-- Embedding of `ResourceAttributesMixin.__getattr__` (lines 70-78): names
starting with `_` raise `AttributeError`; any other name yields a child
`Resource` at the path-joined URL, inheriting format and authentication. -/
def ResourceAttributesMixin_getattr (m : RMeta) (item : Str) : Except PyErr RMeta :=
  if item.take 1 = str "_" then .error .attributeError
  else
    match url_join m.base_url [item] with
    | .error e => .error e
    | .ok u => .ok { base_url := u, format := m.format, authentication := m.authentication }

/-- Result of `Resource.post`: the result of the follow-up `get` (status 201),
the raw body (other `2xx`), or Python `None`. -/
inductive PostResult
  | fromGet (g : GetResult)
  | raw (content : Str)
  | nothing
deriving DecidableEq

/-- Embedding of `Resource.post` (lines 173-186).  `resp`/`content` is the
response to the POST itself; `resp2`/`content2` is the response the follow-up
GET of a 201's `location` would receive.  On status 201 the source calls
`self(url_override=resp["location"])` — with the keyword spelled
`url_override`, which is not among `__call__`'s parameters (`url_overide`). -/
def Resource_post (m : RMeta) (data : Str) (kwargs : List (Str × Str))
    (resp : HResp) (content : Str) (resp2 : HResp) (content2 : Str) :
    Except SErr PostResult :=
  match kwargs.lookup (str "body") with
  | some _ => .error (.py .typeError)
  | none =>
    match (Resource_request m (str "POST") (Resource_body_kwargs m data kwargs) resp content).2 with
    | .error e => .error e
    | .ok (resp, content) =>
      if 200 ≤ resp.status ∧ resp.status ≤ 299 then
        if resp.status = 201 then
          match resp.getHeader (str "location") with
          | .error e => .error (.py e)
          | .ok loc =>
            match Resource_call_kw m [(str "url_override", loc)] with
            | .error e => .error (.py e)
            | .ok .same =>
              match Resource_get m kwargs resp2 content2 with
              | .error e => .error e
              | .ok g => .ok (.fromGet g)
            | .ok (.new m2) =>
              match Resource_get m2 kwargs resp2 content2 with
              | .error e => .error e
              | .ok g => .ok (.fromGet g)
        else .ok (.raw content)
      else .ok .nothing

/-! ## `MetaMixin`: layered configuration merge -/

/-- Python `dict.update`: entries of `m` overwrite entries of `d`. -/
def dict_update {V : Type} (d m : Str → Option V) : Str → Option V :=
  fun k => match m k with
    | some v => some v
    | none => d k

/-- The items of a `Meta` class dict whose key does not start with `_`
(`[x for x in meta.__dict__.items() if not x[0].startswith("_")]`). -/
def meta_items {V : Type} (m : Str → Option V) : Str → Option V :=
  fun k => if k.take 1 = str "_" then none else m k

/-- The merge loop of `MetaMixin.__init__` (lines 42-47): the declared `Meta`
fragments, listed from the most distant ancestor to the class itself
(`reversed(mro)` order), are merged into one dict, later fragments
overwriting earlier ones, underscore keys excluded. -/
def merge_metas {V : Type} (metas : List (Str → Option V)) : Str → Option V :=
  metas.foldl (fun acc m => dict_update acc (meta_items m)) (fun _ => none)

/-- Embedding of `MetaMixin.__init__` (lines 39-57): merge the declared
fragments, then overwrite each merged key that also occurs in the constructor
keyword arguments (popping it); the first component is the final meta, the
second the unconsumed keyword arguments passed along the constructor chain. -/
def metamixin_init {V : Type} (metas : List (Str → Option V)) (kwargs : Str → Option V) :
    (Str → Option V) × (Str → Option V) :=
  let fm := merge_metas metas
  (fun k => match fm k, kwargs k with
            | some _, some v => some v
            | some v, none => some v
            | none, _ => none,
   fun k => match fm k with
            | some _ => none
            | none => kwargs k)

/-! ## `API` (the Root Node) -/

/-- Python values that can appear as `API` settings: `None` or a value
(strings for `base_url`/`format`; an opaque credential bundle). -/
inductive PyVal
  | vnone
  | vstr (s : Str)
  | vcreds (c : List (Str × Str))
deriving DecidableEq

/-- The class dict of `API.Meta` (lines 213-217): `format = "json"`,
`authentication = None`, `base_url = None`. -/
def API_Meta : Str → Option PyVal :=
  fun k =>
    if k = str "format" then some (.vstr (str "json"))
    else if k = str "authentication" then some .vnone
    else if k = str "base_url" then some .vnone
    else none

/-- Embedding of `API.__init__(base_url=None, **kwargs)` (lines 219-232): a
non-`None` `base_url` argument is put into the keyword arguments, the
`MetaMixin` merge runs (the only class with a `Meta` in `API`'s MRO is `API`
itself), and construction fails with `ImproperlyConfigured` exactly when the
merged `base_url` is still `None`.  Note Python's calling convention makes it
impossible for `kwargs` to contain the key `base_url` (it would bind the named
parameter instead). -/
def API_init (base_url : PyVal) (kwargs : Str → Option PyVal) :
    Except SErr ((Str → Option PyVal) × (Str → Option PyVal)) :=
  let kwargs := if base_url ≠ .vnone then
      (fun k => if k = str "base_url" then some base_url else kwargs k)
    else kwargs
  let mr := metamixin_init [API_Meta] kwargs
  if mr.1 (str "base_url") = some .vnone then
    .error (.improperlyConfigured (str "base_url is required"))
  else .ok mr

/-! ## Theorems -/

/-- C1: the spec says a POST answered with status 201 re-resolves the node at
the returned `location` (via the call/override operation) and returns the
result of a `get` there.  The code instead raises `TypeError`: `post` passes
the keyword `url_override`, but `__call__`'s parameter is spelled
`url_overide`, so the keyword is unexpected.  Evaluated at a concrete 201
response carrying `location: /items/42`. -/
theorem post_status_201_raises_type_error :
    Resource_post
      { base_url := str "http://example.com/items", format := str "json",
        authentication := none }
      (str "payload") []
      { status := 201, headers := [(str "location", str "/items/42")] } (str "")
      { status := 200, headers := [] } (str "{}")
      = .error (.py .typeError) := by decide

/-- The status dispatch of `Resource._request`, written as one equation.  The
URL in the error messages does not depend on the method. -/
theorem request_snd_eq (m : RMeta) (meth : Str) (kwargs : List (Str × Str))
    (resp : HResp) (content : Str) :
    (Resource_request m meth kwargs resp content).2 =
      if 400 ≤ resp.status ∧ resp.status ≤ 499 then
        .error (.httpClientError
          (str "Client Error " ++ str (toString resp.status) ++ str ": "
            ++ (Resource_buildRequest m meth kwargs).url) resp content)
      else if 500 ≤ resp.status ∧ resp.status ≤ 599 then
        .error (.httpServerError
          (str "Server Error " ++ str (toString resp.status) ++ str ": "
            ++ (Resource_buildRequest m meth kwargs).url) resp content)
      else .ok (resp, content) := rfl

/-- C2: for every verb (the four verbs all route their response through
`Resource._request`): a status in 400-499 raises `HttpClientError` and a
status in 500-599 raises `HttpServerError`, each carrying the message (with
the status), the response and the body; any other status is passed on without
raising. -/
theorem request_status_dispatch (m : RMeta) (data : Str) (kwargs : List (Str × Str))
    (resp : HResp) (content : Str) (resp2 : HResp) (content2 : Str)
    (hb : kwargs.lookup (str "body") = none) :
    ((Resource_request m (str "GET") kwargs resp content).2 =
      if 400 ≤ resp.status ∧ resp.status ≤ 499 then
        .error (.httpClientError
          (str "Client Error " ++ str (toString resp.status) ++ str ": "
            ++ (Resource_buildRequest m (str "GET") kwargs).url) resp content)
      else if 500 ≤ resp.status ∧ resp.status ≤ 599 then
        .error (.httpServerError
          (str "Server Error " ++ str (toString resp.status) ++ str ": "
            ++ (Resource_buildRequest m (str "GET") kwargs).url) resp content)
      else .ok (resp, content)) ∧
    (400 ≤ resp.status ∧ resp.status ≤ 499 →
      (Resource_get m kwargs resp content = .error (.httpClientError
          (str "Client Error " ++ str (toString resp.status) ++ str ": "
            ++ (Resource_buildRequest m (str "GET") kwargs).url) resp content) ∧
       Resource_post m data kwargs resp content resp2 content2 = .error (.httpClientError
          (str "Client Error " ++ str (toString resp.status) ++ str ": "
            ++ (Resource_buildRequest m (str "GET") kwargs).url) resp content) ∧
       Resource_put m data kwargs resp content = .error (.httpClientError
          (str "Client Error " ++ str (toString resp.status) ++ str ": "
            ++ (Resource_buildRequest m (str "GET") kwargs).url) resp content) ∧
       Resource_delete m kwargs resp content = .error (.httpClientError
          (str "Client Error " ++ str (toString resp.status) ++ str ": "
            ++ (Resource_buildRequest m (str "GET") kwargs).url) resp content))) ∧
    (500 ≤ resp.status ∧ resp.status ≤ 599 →
      (Resource_get m kwargs resp content = .error (.httpServerError
          (str "Server Error " ++ str (toString resp.status) ++ str ": "
            ++ (Resource_buildRequest m (str "GET") kwargs).url) resp content) ∧
       Resource_post m data kwargs resp content resp2 content2 = .error (.httpServerError
          (str "Server Error " ++ str (toString resp.status) ++ str ": "
            ++ (Resource_buildRequest m (str "GET") kwargs).url) resp content) ∧
       Resource_put m data kwargs resp content = .error (.httpServerError
          (str "Server Error " ++ str (toString resp.status) ++ str ": "
            ++ (Resource_buildRequest m (str "GET") kwargs).url) resp content) ∧
       Resource_delete m kwargs resp content = .error (.httpServerError
          (str "Server Error " ++ str (toString resp.status) ++ str ": "
            ++ (Resource_buildRequest m (str "GET") kwargs).url) resp content))) := by
  refine ⟨rfl, fun h4 => ?_, fun h5 => ?_⟩
  · refine ⟨?_, ?_, ?_, ?_⟩
    · unfold Resource_get
      rw [request_snd_eq, if_pos h4]
    · unfold Resource_post
      rw [hb, request_snd_eq, if_pos h4]
      rfl
    · unfold Resource_put
      rw [hb, request_snd_eq, if_pos h4]
      rfl
    · unfold Resource_delete
      rw [request_snd_eq, if_pos h4]
      rfl
  · have h4 : ¬(400 ≤ resp.status ∧ resp.status ≤ 499) := by omega
    refine ⟨?_, ?_, ?_, ?_⟩
    · unfold Resource_get
      rw [request_snd_eq, if_neg h4, if_pos h5]
    · unfold Resource_post
      rw [hb, request_snd_eq, if_neg h4, if_pos h5]
      rfl
    · unfold Resource_put
      rw [hb, request_snd_eq, if_neg h4, if_pos h5]
      rfl
    · unfold Resource_delete
      rw [request_snd_eq, if_neg h4, if_pos h5]
      rfl

/-- Witness for C2: the dispatch, and verbs, evaluated at concrete 404, 503
and 204 responses. -/
theorem request_status_dispatch_witness :
    Resource_get { base_url := str "http://e.com/x", format := str "json", authentication := none }
      [] { status := 404, headers := [] } (str "notfound")
      = .error (.httpClientError (str "Client Error 404: http://e.com/x")
          { status := 404, headers := [] } (str "notfound")) ∧
    Resource_delete { base_url := str "http://e.com/x", format := str "json", authentication := none }
      [] { status := 503, headers := [] } (str "down")
      = .error (.httpServerError (str "Server Error 503: http://e.com/x")
          { status := 503, headers := [] } (str "down")) ∧
    (Resource_request { base_url := str "http://e.com/x", format := str "json", authentication := none }
      (str "GET") [] { status := 204, headers := [] } (str "")).2
      = .ok ({ status := 204, headers := [] }, str "") := by
  refine ⟨?_, ?_, ?_⟩
  · exact ((request_status_dispatch _ (str "") [] ⟨404, []⟩ (str "notfound")
      ⟨0, []⟩ (str "") rfl).2.1 (by decide)).1.trans (by decide)
  · exact ((request_status_dispatch _ (str "") [] ⟨503, []⟩ (str "down")
      ⟨0, []⟩ (str "") rfl).2.2 (by decide)).2.2.2.trans (by decide)
  · exact (request_status_dispatch _ (str "") [] ⟨204, []⟩ (str "")
      ⟨0, []⟩ (str "") rfl).1.trans (by decide)

/-- C3: for a `get` whose response survives the 4xx/5xx dispatch, status
exactly 200 returns the serializer-decoded body, any other 2xx status returns
the raw undecoded body, and any status outside 200-299 returns Python `None`. -/
theorem get_result_by_status (m : RMeta) (kwargs : List (Str × Str))
    (resp : HResp) (content : Str)
    (h : ¬(400 ≤ resp.status ∧ resp.status ≤ 599)) :
    Resource_get m kwargs resp content =
      if resp.status = 200 then .ok (.decoded m.format content)
      else if 200 ≤ resp.status ∧ resp.status ≤ 299 then .ok (.raw content)
      else .ok .nothing := by
  have h4 : ¬(400 ≤ resp.status ∧ resp.status ≤ 499) := by omega
  have h5 : ¬(500 ≤ resp.status ∧ resp.status ≤ 599) := by omega
  unfold Resource_get
  rw [request_snd_eq, if_neg h4, if_neg h5]
  show (if 200 ≤ resp.status ∧ resp.status ≤ 299 then
          if resp.status = 200 then Except.ok (GetResult.decoded m.format content)
          else Except.ok (GetResult.raw content)
        else Except.ok GetResult.nothing) = _
  split_ifs <;> first | rfl | omega

/-- Witness for C3: status 204 yields the raw body, evaluated concretely. -/
theorem get_result_by_status_witness :
    Resource_get { base_url := str "http://e.com/x", format := str "json", authentication := none }
      [] { status := 204, headers := [] } (str "rawbody")
      = .ok (.raw (str "rawbody")) := by
  exact (get_result_by_status _ [] ⟨204, []⟩ (str "rawbody") (by decide)).trans (by decide)

/-- C4: for `put` and `delete` whose response survives the 4xx/5xx dispatch,
every 2xx status (204 included) returns `True` and every status outside
200-299 returns `False`; `put` sends the serializer-encoded `data` as the
request body and `delete` sends no body. -/
theorem put_delete_result_by_status (m : RMeta) (data : Str) (kwargs : List (Str × Str))
    (resp : HResp) (content : Str)
    (hb : kwargs.lookup (str "body") = none)
    (h : ¬(400 ≤ resp.status ∧ resp.status ≤ 599)) :
    (Resource_put m data kwargs resp content =
      if 200 ≤ resp.status ∧ resp.status ≤ 299 then .ok true else .ok false) ∧
    (Resource_delete m kwargs resp content =
      if 200 ≤ resp.status ∧ resp.status ≤ 299 then .ok true else .ok false) ∧
    (Resource_request m (str "PUT") (Resource_body_kwargs m data kwargs) resp content).1.body
      = some (serializer_dumps m.format data) ∧
    (Resource_request m (str "DELETE") kwargs resp content).1.body = none := by
  have h4 : ¬(400 ≤ resp.status ∧ resp.status ≤ 499) := by omega
  have h5 : ¬(500 ≤ resp.status ∧ resp.status ≤ 599) := by omega
  refine ⟨?_, ?_, ?_, ?_⟩
  · unfold Resource_put
    rw [hb, request_snd_eq, if_neg h4, if_neg h5]
    show (if 200 ≤ resp.status ∧ resp.status ≤ 299 then
            if resp.status = 204 then Except.ok true else Except.ok true
          else Except.ok false) = _
    split_ifs <;> rfl
  · unfold Resource_delete
    rw [request_snd_eq, if_neg h4, if_neg h5]
    show (if 200 ≤ resp.status ∧ resp.status ≤ 299 then
            if resp.status = 204 then Except.ok true else Except.ok true
          else Except.ok false) = _
    split_ifs <;> rfl
  · rfl
  · exact hb

/-- Witness for C4: `put` and `delete` at status 204 return `True`, the PUT
body is the encoded payload, the DELETE body is absent — all evaluated. -/
theorem put_delete_result_by_status_witness :
    Resource_put { base_url := str "http://e.com/x", format := str "json", authentication := none }
      (str "payload") [] { status := 204, headers := [] } (str "") = .ok true ∧
    Resource_delete { base_url := str "http://e.com/x", format := str "json", authentication := none }
      [] { status := 204, headers := [] } (str "") = .ok true ∧
    (Resource_request { base_url := str "http://e.com/x", format := str "json", authentication := none }
      (str "PUT") (Resource_body_kwargs
        { base_url := str "http://e.com/x", format := str "json", authentication := none }
        (str "payload") []) { status := 204, headers := [] } (str "")).1.body
      = some (serializer_dumps (str "json") (str "payload")) ∧
    (Resource_request { base_url := str "http://e.com/x", format := str "json", authentication := none }
      (str "DELETE") [] { status := 204, headers := [] } (str "")).1.body = none := by
  obtain ⟨hput, hdel, hpb, hdb⟩ := put_delete_result_by_status
    { base_url := str "http://e.com/x", format := str "json", authentication := none }
    (str "payload") [] ⟨204, []⟩ (str "") rfl (by decide)
  exact ⟨hput.trans (by decide), hdel.trans (by decide), hpb, hdb⟩

/-- C9: for every verb call, keyword arguments other than the reserved key
`body` are URL-encoded and appended to `base_url` after a `?` to form the
request URL (the URL is `base_url` unchanged when there are none), and those
arguments are not forwarded in the request body — the body is exactly the
value of the reserved `body` key, if any. -/
theorem request_query_encoding (m : RMeta) (method : Str) (kwargs : List (Str × Str)) :
    ((Resource_buildRequest m method kwargs).url =
      if kwargs.filter (fun kv => !(kv.1 == str "body")) = [] then m.base_url
      else m.base_url ++ '?' :: urlencode (kwargs.filter (fun kv => !(kv.1 == str "body")))) ∧
    (Resource_buildRequest m method kwargs).body = kwargs.lookup (str "body") := by
  constructor
  · unfold Resource_buildRequest
    by_cases hrest : kwargs.filter (fun kv => !(kv.1 == str "body")) = []
    · rw [if_pos hrest]
      simp [hrest]
    · rw [if_neg hrest]
      simp only [List.isEmpty_iff]
      rw [if_neg hrest]
  · rfl

/-- Query-encoding scenario from the spec: keyword arguments
`{"q": "x", "page": 2}` and no `body` key produce
`base_url?q=x&page=2` and an empty request body. -/
theorem request_query_encoding_example :
    (Resource_buildRequest { base_url := str "http://e.com/x", format := str "json", authentication := none }
      (str "GET") [(str "q", str "x"), (str "page", str "2")]).url
      = str "http://e.com/x?q=x&page=2" ∧
    (Resource_buildRequest { base_url := str "http://e.com/x", format := str "json", authentication := none }
      (str "GET") [(str "q", str "x"), (str "page", str "2")]).body = none := by
  obtain ⟨hurl, hbody⟩ := request_query_encoding
    { base_url := str "http://e.com/x", format := str "json", authentication := none }
    (str "GET") [(str "q", str "x"), (str "page", str "2")]
  exact ⟨hurl.trans (by decide), hbody.trans (by decide)⟩

/-- C10: a caller-supplied keyword named `body` on the body-less verbs `get`
and `delete` is not a query parameter: it is popped from the query set and
becomes the HTTP request body of the GET or DELETE request (`get` and
`delete` hand their keyword arguments straight to `_request`, whose sent
request is `Resource_buildRequest`). -/
theorem body_kwarg_sent_as_body (m : RMeta) (kwargs : List (Str × Str)) (b : Str)
    (hb : kwargs.lookup (str "body") = some b) :
    (Resource_buildRequest m (str "GET") kwargs).body = some b ∧
    (Resource_buildRequest m (str "DELETE") kwargs).body = some b ∧
    (Resource_buildRequest m (str "GET") kwargs).url =
      (Resource_buildRequest m (str "GET")
        (kwargs.filter (fun kv => !(kv.1 == str "body")))).url ∧
    (Resource_buildRequest m (str "DELETE") kwargs).url =
      (Resource_buildRequest m (str "DELETE")
        (kwargs.filter (fun kv => !(kv.1 == str "body")))).url := by
  have hfilter : (kwargs.filter (fun kv => !(kv.1 == str "body"))).filter
      (fun kv => !(kv.1 == str "body")) = kwargs.filter (fun kv => !(kv.1 == str "body")) := by
    rw [List.filter_filter]
    apply List.filter_congr
    intro x _
    rw [Bool.and_self]
  refine ⟨hb, hb, ?_, ?_⟩
  · unfold Resource_buildRequest
    rw [hfilter]
  · unfold Resource_buildRequest
    rw [hfilter]

/-- Witness for C10: a concrete `body` keyword alongside a query argument is
sent as the request body and dropped from the query string. -/
theorem body_kwarg_sent_as_body_witness :
    (Resource_buildRequest { base_url := str "http://e.com/x", format := str "json", authentication := none }
      (str "GET") [(str "body", str "B"), (str "q", str "x")]).body = some (str "B") ∧
    (Resource_buildRequest { base_url := str "http://e.com/x", format := str "json", authentication := none }
      (str "GET") [(str "body", str "B"), (str "q", str "x")]).url = str "http://e.com/x?q=x" := by
  obtain ⟨hbody, _, hurl, _⟩ := body_kwarg_sent_as_body
    { base_url := str "http://e.com/x", format := str "json", authentication := none }
    [(str "body", str "B"), (str "q", str "x")] (str "B") rfl
  exact ⟨hbody, hurl.trans (by decide)⟩

/-- C5: `Resource.__call__` returns the identical node (`self`, not a copy)
when all three arguments are omitted; otherwise it returns a new node whose
`base_url` is `str(id)` path-joined onto the current one when `id` is given,
whose `format` is replaced when `format` is given, and whose `base_url` is
replaced wholesale by `url_overide` when that is given — with `url_overide`
taking precedence over the `id`-derived URL when both are present.
`joined` names the `id`-derived URL (or the current `base_url` when `id` is
omitted). -/
theorem call_override_semantics (m : RMeta) (id format url_overide : Option Str)
    (joined : Str)
    (hj : match id with
          | some i => url_join m.base_url [i] = .ok joined
          | none => joined = m.base_url) :
    Resource_call m id format url_overide =
      if id = none ∧ format = none ∧ url_overide = none then .ok .same
      else .ok (.new { base_url := url_overide.getD joined,
                       format := format.getD m.format,
                       authentication := m.authentication }) := by
  cases id with
  | none =>
    cases hj
    rfl
  | some i =>
    have hne : ¬(some i = none ∧ format = none ∧ url_overide = none) := by
      intro hc
      exact Option.noConfusion hc.1
    unfold Resource_call
    rw [if_neg hne]
    rw [if_neg hne]
    show (match url_join m.base_url [i] with
          | Except.error e => (Except.error e : Except PyErr CallResult)
          | Except.ok joined =>
            Except.ok (CallResult.new
              { base_url := url_overide.getD joined, format := format.getD m.format,
                authentication := m.authentication })) = _
    rw [hj]

/-- Witness for C5: all three arguments at once — the override URL wins over
the `id`-derived URL, the format is replaced, credentials are inherited. -/
theorem call_override_semantics_witness :
    Resource_call { base_url := str "http://example.com/items", format := str "json", authentication := none }
      (some (str "42")) (some (str "xml")) (some (str "http://other/loc")) =
      .ok (.new { base_url := str "http://other/loc", format := str "xml",
                  authentication := none }) := by
  exact (call_override_semantics
    { base_url := str "http://example.com/items", format := str "json", authentication := none }
    (some (str "42")) (some (str "xml")) (some (str "http://other/loc"))
    (str "http://example.com/items/42") (by decide)).trans (by decide)

/-- Appending one more (most-derived) fragment to the merge is one
`dict.update` with that fragment's non-underscore items. -/
theorem merge_metas_append {V : Type} (ms : List (Str → Option V))
    (frag : Str → Option V) (k : Str) :
    merge_metas (ms ++ [frag]) k = dict_update (merge_metas ms) (meta_items frag) k := by
  unfold merge_metas
  rw [List.foldl_append]
  rfl

/-- Keys beginning with an underscore never enter the merged meta. -/
theorem merge_metas_underscore {V : Type} (ms : List (Str → Option V))
    (u : Str) (hu : u.take 1 = str "_") :
    merge_metas ms u = none := by
  unfold merge_metas
  suffices hgen : ∀ acc : Str → Option V, acc u = none →
      (ms.foldl (fun acc m => dict_update acc (meta_items m)) acc) u = none from
    hgen _ rfl
  induction ms with
  | nil => intro acc hacc; exact hacc
  | cons m ms ih =>
    intro acc hacc
    apply ih
    show (match (if u.take 1 = str "_" then none else m u : Option V) with
          | some v => some v
          | none => acc u) = none
    rw [if_pos hu]
    exact hacc

/-- C7: node settings are produced by merging the declared fragments from the
most distant ancestor to the type itself — so a later (more derived)
fragment's declared default for a key wins — then applying explicit keyword
overrides, which win over all declared defaults; keys beginning with `_` are
excluded from the merge; keyword arguments whose key appears in no declared
fragment are not consumed and are passed through, while consumed overrides
are popped. -/
theorem meta_merge_semantics {V : Type} (ms : List (Str → Option V))
    (frag kwargs : Str → Option V) (k j u : Str) (v w : V)
    (hk : ¬ k.take 1 = str "_") (hfrag : frag k = some v) (hkw : kwargs k = some w)
    (hu : u.take 1 = str "_")
    (hj : merge_metas (ms ++ [frag]) j = none) :
    merge_metas (ms ++ [frag]) k = some v ∧
    (metamixin_init (ms ++ [frag]) kwargs).1 k = some w ∧
    merge_metas (ms ++ [frag]) u = none ∧
    (metamixin_init (ms ++ [frag]) kwargs).2 j = kwargs j ∧
    (metamixin_init (ms ++ [frag]) kwargs).2 k = none := by
  have hmk : merge_metas (ms ++ [frag]) k = some v := by
    rw [merge_metas_append]
    unfold dict_update meta_items
    rw [if_neg hk, hfrag]
  refine ⟨hmk, ?_, merge_metas_underscore _ u hu, ?_, ?_⟩
  · show (match merge_metas (ms ++ [frag]) k, kwargs k with
          | some _, some v => some v
          | some v, none => some v
          | none, _ => none) = some w
    rw [hmk, hkw]
  · show (match merge_metas (ms ++ [frag]) j with
          | some _ => none
          | none => kwargs j) = kwargs j
    rw [hj]
  · show (match merge_metas (ms ++ [frag]) k with
          | some _ => none
          | none => kwargs k) = none
    rw [hmk]

/-- Witness for C7: a supertype fragment, a subtype fragment, an explicit
override, an underscore key and an unrecognized key, evaluated concretely. -/
theorem meta_merge_semantics_witness :
    merge_metas ([fun s => if s = str "format" then some (PyVal.vstr (str "xml")) else none]
        ++ [fun s => if s = str "format" then some (PyVal.vstr (str "json"))
            else if s = str "_doc" then some PyVal.vnone else none])
      (str "format") = some (PyVal.vstr (str "json")) ∧
    (metamixin_init ([fun s => if s = str "format" then some (PyVal.vstr (str "xml")) else none]
        ++ [fun s => if s = str "format" then some (PyVal.vstr (str "json"))
            else if s = str "_doc" then some PyVal.vnone else none])
      (fun s => if s = str "format" then some (PyVal.vstr (str "yaml"))
        else if s = str "extra" then some PyVal.vnone else none)).1 (str "format")
      = some (PyVal.vstr (str "yaml")) ∧
    merge_metas ([fun s => if s = str "format" then some (PyVal.vstr (str "xml")) else none]
        ++ [fun s => if s = str "format" then some (PyVal.vstr (str "json"))
            else if s = str "_doc" then some PyVal.vnone else none])
      (str "_doc") = none ∧
    (metamixin_init ([fun s => if s = str "format" then some (PyVal.vstr (str "xml")) else none]
        ++ [fun s => if s = str "format" then some (PyVal.vstr (str "json"))
            else if s = str "_doc" then some PyVal.vnone else none])
      (fun s => if s = str "format" then some (PyVal.vstr (str "yaml"))
        else if s = str "extra" then some PyVal.vnone else none)).2 (str "extra")
      = some PyVal.vnone ∧
    (metamixin_init ([fun s => if s = str "format" then some (PyVal.vstr (str "xml")) else none]
        ++ [fun s => if s = str "format" then some (PyVal.vstr (str "json"))
            else if s = str "_doc" then some PyVal.vnone else none])
      (fun s => if s = str "format" then some (PyVal.vstr (str "yaml"))
        else if s = str "extra" then some PyVal.vnone else none)).2 (str "format") = none := by
  obtain ⟨h1, h2, h3, h4, h5⟩ := meta_merge_semantics
    [fun s => if s = str "format" then some (PyVal.vstr (str "xml")) else none]
    (fun s => if s = str "format" then some (PyVal.vstr (str "json"))
      else if s = str "_doc" then some PyVal.vnone else none)
    (fun s => if s = str "format" then some (PyVal.vstr (str "yaml"))
      else if s = str "extra" then some PyVal.vnone else none)
    (str "format") (str "extra") (str "_doc")
    (PyVal.vstr (str "json")) (PyVal.vstr (str "yaml"))
    (by decide) (by decide) (by decide) (by decide) (by decide)
  exact ⟨h1, h2, h3, h4.trans (by decide), h5⟩

/-- The merged meta of `API` at the key `base_url` evaluates to the provided
keyword value when present, and to the declared default `None` otherwise. -/
theorem api_meta_base_url (kwargs : Str → Option PyVal) :
    (metamixin_init [API_Meta] kwargs).1 (str "base_url") =
      match kwargs (str "base_url") with
      | some v => some v
      | none => some PyVal.vnone := by
  have hfm : merge_metas [API_Meta] (str "base_url") = some PyVal.vnone := by decide
  simp only [metamixin_init]
  rw [hfm]
  cases kwargs (str "base_url") <;> rfl

/-- C8 (amended): Root Node construction fails with `ImproperlyConfigured`
exactly when the `base_url` argument is Python `None` (the merged `base_url`
then stays at the declared default `None`); any non-`None` `base_url` —
including the empty string — is accepted, and the resolved `base_url` is the
given value.  (Python's calling convention keeps the key `base_url` out of
`kwargs`, hence the hypothesis.) -/
theorem api_base_url_required (base_url : PyVal) (kwargs : Str → Option PyVal)
    (hk : kwargs (str "base_url") = none) :
    (API_init base_url kwargs
        = .error (.improperlyConfigured (str "base_url is required"))
      ↔ base_url = .vnone) ∧
    (base_url ≠ .vnone →
      (API_init base_url kwargs).toOption.map (fun mr => mr.1 (str "base_url"))
        = some (some base_url)) := by
  by_cases hbu : base_url = PyVal.vnone
  · subst hbu
    have hmeta : (metamixin_init [API_Meta] kwargs).1 (str "base_url") = some PyVal.vnone := by
      rw [api_meta_base_url, hk]
    have hcond : ¬(PyVal.vnone ≠ PyVal.vnone) := fun h => h rfl
    constructor
    · refine ⟨fun _ => rfl, fun _ => ?_⟩
      unfold API_init
      rw [if_neg hcond, if_pos hmeta]
    · intro hne
      exact absurd rfl hne
  · have hmeta : (metamixin_init [API_Meta]
        (fun k => if k = str "base_url" then some base_url else kwargs k)).1 (str "base_url")
        = some base_url := by
      rw [api_meta_base_url]
      rw [if_pos rfl]
    have hok : API_init base_url kwargs =
        .ok (metamixin_init [API_Meta]
          (fun k => if k = str "base_url" then some base_url else kwargs k)) := by
      have hcond : ¬((metamixin_init [API_Meta]
          (fun k => if k = str "base_url" then some base_url else kwargs k)).1 (str "base_url")
            = some PyVal.vnone) := by
        rw [hmeta]
        intro hc
        exact hbu (Option.some.inj hc)
      unfold API_init
      rw [if_pos hbu]
      rw [if_neg hcond]
    constructor
    · constructor
      · intro herr
        rw [hok] at herr
        exact absurd herr (by intro hc; cases hc)
      · intro hc
        exact absurd hc hbu
    · intro _
      rw [hok]
      show some ((metamixin_init [API_Meta]
        (fun k => if k = str "base_url" then some base_url else kwargs k)).1 (str "base_url"))
        = some (some base_url)
      rw [hmeta]

/-- Witness for C8: a concrete URL is accepted and resolved; a `None`
`base_url` is rejected with the configuration error. -/
theorem api_base_url_required_witness :
    (API_init (PyVal.vstr (str "http://example.com")) (fun _ => none)).toOption.map
        (fun mr => mr.1 (str "base_url")) = some (some (PyVal.vstr (str "http://example.com"))) ∧
    API_init PyVal.vnone (fun _ => none)
      = .error (.improperlyConfigured (str "base_url is required")) := by
  refine ⟨?_, ?_⟩
  · exact (api_base_url_required (PyVal.vstr (str "http://example.com"))
      (fun _ => none) rfl).2 (by decide)
  · exact (api_base_url_required PyVal.vnone (fun _ => none) rfl).1.mpr rfl

/-- Counterexample for C8 as stated: the claim says construction with an
empty `base_url` fails, but `API.__init__` only checks `base_url is None` —
constructing with the empty string succeeds and resolves `base_url` to the
empty string. -/
theorem api_accepts_empty_base_url :
    (API_init (PyVal.vstr (str "")) (fun _ => none)).toOption.map
      (fun mr => mr.1 (str "base_url")) = some (some (PyVal.vstr (str ""))) := by
  decide

/-! ## Path composition: validity predicates and helper lemmas -/

/-- The normalization `urlunsplit` applies to a path placed after a netloc:
a nonempty path not starting with `/` gets `/` prepended. -/
def normPath (P : Str) : Str :=
  if P ≠ [] ∧ P.take 1 ≠ str "/" then '/' :: P else P

/-- Whether a string contains two consecutive `/` characters. -/
def hasDoubleSlash : Str → Bool
  | [] => false
  | [_] => false
  | a :: b :: t => (a = '/' && b = '/') || hasDoubleSlash (b :: t)

/-- A path segment as produced by attribute access or an `id` call: nonempty
and free of the URL delimiters `/`, `?`, `#`. -/
def ValidSegment (s : Str) : Prop :=
  s ≠ [] ∧ ∀ c ∈ s, c ≠ '/' ∧ c ≠ '?' ∧ c ≠ '#'

/-- A well-formed, lower-case, nonempty scheme. -/
def SchemeOk (sch : Str) : Prop :=
  sch ≠ [] ∧ (∀ c ∈ sch, c ∈ scheme_chars) ∧ sch.map Char.toLower = sch

/-- A nonempty host part free of delimiters and IPv6 brackets. -/
def NetlocOk (nl : Str) : Prop :=
  nl ≠ [] ∧ ∀ c ∈ nl, c ≠ '/' ∧ c ≠ '?' ∧ c ≠ '#' ∧ c ≠ '[' ∧ c ≠ ']'

/-- A path free of `?` and `#`. -/
def PathOk (p : Str) : Prop := ∀ c ∈ p, c ≠ '?' ∧ c ≠ '#'

/-- A query free of `#`. -/
def QueryOk (q : Str) : Prop := ∀ c ∈ q, c ≠ '#'

/-- Valid split components of a base URL (the fragment is unconstrained). -/
def ValidParts (sch nl p q : Str) : Prop :=
  SchemeOk sch ∧ NetlocOk nl ∧ PathOk p ∧ QueryOk q

/-- Joining the segments one at a time, as successive attribute accesses or
`id` calls do to `base_url` (each step is one `url_join` with one segment). -/
def stepwise_join (u : Str) : List Str → Except PyErr Str
  | [] => .ok u
  | s :: segs =>
    match url_join u [s] with
    | .error e => .error e
    | .ok u1 => stepwise_join u1 segs

theorem findChar_append (c : Char) (a r : Str) (ha : ∀ x ∈ a, ¬(x = c)) :
    findChar c (a ++ c :: r) = some a.length := by
  induction a with
  | nil => simp [findChar]
  | cons x a ih =>
    have hx : ¬(x = c) := ha x (List.mem_cons_self x a)
    have ih' := ih (fun y hy => ha y (List.mem_cons_of_mem x hy))
    simp [findChar, hx, ih']

theorem takeWhile_dropWhile_append (p : Char → Bool) (a b : Str)
    (ha : ∀ x ∈ a, p x = true) (hb : ∀ x t, b = x :: t → p x = false) :
    (a ++ b).takeWhile p = a ∧ (a ++ b).dropWhile p = b := by
  induction a with
  | nil =>
    cases b with
    | nil => exact ⟨rfl, rfl⟩
    | cons x t =>
      have hx := hb x t rfl
      constructor
      · show List.takeWhile p (x :: t) = []
        rw [List.takeWhile_cons, hx]
        rfl
      · show List.dropWhile p (x :: t) = x :: t
        rw [List.dropWhile_cons, hx]
        rfl
  | cons y a ih =>
    have hy : p y = true := ha y (List.mem_cons_self y a)
    have ih' := ih (fun x hx => ha x (List.mem_cons_of_mem y hx))
    constructor
    · show List.takeWhile p (y :: (a ++ b)) = y :: a
      rw [List.takeWhile_cons, hy]
      simp only [if_true]
      rw [ih'.1]
    · show List.dropWhile p (y :: (a ++ b)) = b
      rw [List.dropWhile_cons, hy]
      simp only [if_true]
      exact ih'.2

theorem normPath_head (P : Str) (hP : P ≠ []) : ∃ t, normPath P = '/' :: t := by
  unfold normPath
  by_cases hs : P.take 1 = str "/"
  · rw [if_neg (fun hc => hc.2 hs)]
    cases P with
    | nil => exact absurd rfl hP
    | cons p0 P' =>
      have : p0 = '/' := by
        have h1 : (p0 :: P').take 1 = [p0] := rfl
        rw [h1] at hs
        exact List.head_eq_of_cons_eq hs
      exact ⟨P', by rw [this]⟩
  · rw [if_pos ⟨hP, hs⟩]
    exact ⟨P, rfl⟩

theorem pathOk_normPath (P : Str) (hp : PathOk P) : PathOk (normPath P) := by
  unfold normPath
  by_cases hc : P ≠ [] ∧ P.take 1 ≠ str "/"
  · rw [if_pos hc]
    intro c hcm
    rcases List.mem_cons.mp hcm with h | h
    · subst h
      exact ⟨by decide, by decide⟩
    · exact hp c h
  · rw [if_neg hc]
    exact hp

theorem splitOnce_append (sep : Char) (a b : Str) (ha : ∀ x ∈ a, ¬(x = sep)) :
    splitOnce sep (a ++ sep :: b) = (a, b) := by
  induction a with
  | nil => simp [splitOnce]
  | cons x a ih =>
    have hx : ¬(x = sep) := ha x (List.mem_cons_self x a)
    have ih' := ih (fun y hy => ha y (List.mem_cons_of_mem x hy))
    have ih1 : (a ++ sep :: b).takeWhile (· ≠ sep) = a := congrArg Prod.fst ih'
    have ih2 : ((a ++ sep :: b).dropWhile (· ≠ sep)).drop 1 = b := congrArg Prod.snd ih'
    simp only [splitOnce, List.cons_append, List.takeWhile_cons, List.dropWhile_cons]
    simp only [decide_not] at ih1 ih2
    rw [List.drop_one] at ih2
    simp [hx, ih1, ih2]

theorem splitScheme_append (sch rest : Str)
    (h1 : sch ≠ []) (h2 : ∀ c ∈ sch, c ∈ scheme_chars) (h3 : sch.map Char.toLower = sch)
    (h4 : ∃ c ∈ rest, c.isDigit = false) :
    splitScheme (sch ++ ':' :: rest) = (sch, rest) := by
  have hnc : ∀ x ∈ sch, ¬(x = ':') := by
    intro x hx he
    subst he
    have hmem := h2 _ hx
    revert hmem
    decide
  have hfind : findChar ':' (sch ++ ':' :: rest) = some sch.length :=
    findChar_append ':' sch rest hnc
  have hpos : 0 < sch.length := List.length_pos.mpr h1
  have htake : (sch ++ ':' :: rest).take sch.length = sch := List.take_left sch _
  have hdrop : (sch ++ ':' :: rest).drop (sch.length + 1) = rest := by
    have hsplit : sch ++ ':' :: rest = (sch ++ [':']) ++ rest := by simp
    have hlen : sch.length + 1 = (sch ++ [':']).length := by simp
    rw [hsplit, hlen]
    exact List.drop_left _ _
  simp only [splitScheme, hfind]
  rw [if_pos hpos, htake, hdrop]
  by_cases hh : sch = str "http"
  · rw [if_pos hh, hh]
  · rw [if_neg hh, if_pos ⟨h2, Or.inr h4⟩, h3]

theorem str_two_slashes : str "//" = ['/', '/'] := rfl

theorem urlunsplit_eq (sch nl P q f : Str) (hsch : sch ≠ []) (hnl : nl ≠ []) :
    urlunsplit sch nl P q f =
      sch ++ ':' :: '/' :: '/' ::
        (nl ++ (normPath P ++
          ((if q ≠ [] then '?' :: q else []) ++ (if f ≠ [] then '#' :: f else [])))) := by
  simp only [urlunsplit, normPath]
  rw [if_pos (Or.inl hnl), if_pos hsch]
  by_cases hq : q ≠ [] <;> by_cases hf : f ≠ [] <;>
    simp [hq, hf, str_two_slashes, List.append_assoc]

theorem take_two_cons_cons (a b : Char) (l : Str) : (a :: b :: l).take 2 = [a, b] := rfl

theorem urlsplit_urlunsplit (sch nl P q f : Str) (hv : ValidParts sch nl P q) :
    urlsplit (urlunsplit sch nl P q f) = .ok (sch, nl, normPath P, q, f) := by
  obtain ⟨⟨hs1, hs2, hs3⟩, ⟨hn1, hn2⟩, hp, hq⟩ := hv
  have hnp : PathOk (normPath P) := pathOk_normPath P hp
  have hnp_sharp : ∀ x ∈ normPath P, ¬(x = '#') := fun x hx h => (hnp x hx).2 h
  have hnp_quest : ∀ x ∈ normPath P, ¬(x = '?') := fun x hx h => (hnp x hx).1 h
  have hq_sharp : ∀ x ∈ q, ¬(x = '#') := fun x hx h => hq x hx h
  have hnl_all : ∀ x ∈ nl, notDelim x = true := by
    intro x hx
    obtain ⟨ha, hb, hc, _, _⟩ := hn2 x hx
    simp [notDelim, ha, hb, hc]
  have hbr : ¬(('[' ∈ nl ∧ ']' ∉ nl) ∨ (']' ∈ nl ∧ '[' ∉ nl)) := by
    rintro (⟨hmem, _⟩ | ⟨hmem, _⟩)
    · exact (hn2 _ hmem).2.2.2.1 rfl
    · exact (hn2 _ hmem).2.2.2.2 rfl
  have hmain : ∀ Y : Str, (∀ x t, Y = x :: t → notDelim x = false) →
      splitScheme (sch ++ ':' :: ('/' :: '/' :: (nl ++ (normPath P ++ Y))))
        = (sch, '/' :: '/' :: (nl ++ (normPath P ++ Y))) ∧
      splitnetloc ('/' :: '/' :: (nl ++ (normPath P ++ Y))) 2 = (nl, normPath P ++ Y) := by
    intro Y hstopY
    have hstopPY : ∀ x t, normPath P ++ Y = x :: t → notDelim x = false := by
      intro x t hxt
      by_cases hP : P = []
      · subst hP
        rw [show normPath [] = ([] : Str) from rfl, List.nil_append] at hxt
        exact hstopY x t hxt
      · obtain ⟨t', ht'⟩ := normPath_head P hP
        rw [ht', List.cons_append] at hxt
        injection hxt with h1 _
        subst h1
        decide
    have hspan := takeWhile_dropWhile_append notDelim nl (normPath P ++ Y) hnl_all hstopPY
    constructor
    · exact splitScheme_append _ _ hs1 hs2 hs3 ⟨'/', List.mem_cons_self _ _, by decide⟩
    · show ((nl ++ (normPath P ++ Y)).takeWhile notDelim,
            (nl ++ (normPath P ++ Y)).dropWhile notDelim) = (nl, normPath P ++ Y)
      rw [hspan.1, hspan.2]
  rw [urlunsplit_eq sch nl P q f hs1 hn1]
  by_cases hqe : q = [] <;> by_cases hfe : f = []
  · -- q = [], f = []
    subst hqe
    subst hfe
    obtain ⟨hA, hB⟩ := hmain [] (by intro x t h; exact absurd h (by simp))
    simp only [List.append_nil] at hA hB
    have hnof : ¬('#' ∈ normPath P) := fun hc => hnp_sharp _ hc rfl
    have hnoq : ¬('?' ∈ normPath P) := fun hc => hnp_quest _ hc rfl
    rw [if_neg (fun h => h rfl), if_neg (fun h => h rfl)]
    simp only [List.append_nil]
    simp [urlsplit, hA, hB, take_two_cons_cons, str_two_slashes, hbr, hnof, hnoq]
  · -- q = [], f ≠ []
    subst hqe
    obtain ⟨hA, hB⟩ := hmain ('#' :: f) (by
      intro x t h
      injection h with h1 _
      subst h1
      decide)
    have hsplitf := splitOnce_append '#' (normPath P) f hnp_sharp
    have hfmem : '#' ∈ normPath P ++ '#' :: f := by simp
    have hnoq : ¬('?' ∈ normPath P) := fun hc => hnp_quest _ hc rfl
    rw [if_neg (fun h => h rfl), if_pos hfe]
    simp only [List.nil_append]
    simp [urlsplit, hA, hB, take_two_cons_cons, str_two_slashes, hbr, hfmem, hsplitf, hnoq]
  · -- q ≠ [], f = []
    subst hfe
    obtain ⟨hA, hB⟩ := hmain ('?' :: q) (by
      intro x t h
      injection h with h1 _
      subst h1
      decide)
    have hpref : ∀ x ∈ normPath P ++ '?' :: q, ¬(x = '#') := by
      intro x hx
      rcases List.mem_append.mp hx with h | h
      · exact hnp_sharp x h
      · rcases List.mem_cons.mp h with h | h
        · subst h; decide
        · exact hq_sharp x h
    have hnof : ¬('#' ∈ normPath P ++ '?' :: q) := fun hc => hpref _ hc rfl
    have hsplitq := splitOnce_append '?' (normPath P) q hnp_quest
    have hqmem : '?' ∈ normPath P ++ '?' :: q := by simp
    rw [if_pos hqe, if_neg (fun h => h rfl)]
    simp only [List.append_nil]
    simp [urlsplit, hA, hB, take_two_cons_cons, str_two_slashes, hbr, hnof, hqmem, hsplitq]
  · -- q ≠ [], f ≠ []
    obtain ⟨hA, hB⟩ := hmain ('?' :: (q ++ '#' :: f)) (by
      intro x t h
      injection h with h1 _
      subst h1
      decide)
    have hpref : ∀ x ∈ normPath P ++ '?' :: q, ¬(x = '#') := by
      intro x hx
      rcases List.mem_append.mp hx with h | h
      · exact hnp_sharp x h
      · rcases List.mem_cons.mp h with h | h
        · subst h; decide
        · exact hq_sharp x h
    have hre : normPath P ++ ('?' :: (q ++ '#' :: f)) = (normPath P ++ '?' :: q) ++ '#' :: f := by
      simp [List.append_assoc]
    have hsplitf : splitOnce '#' (normPath P ++ ('?' :: (q ++ '#' :: f)))
        = (normPath P ++ '?' :: q, f) := by
      rw [hre]
      exact splitOnce_append '#' (normPath P ++ '?' :: q) f hpref
    have hfmem : '#' ∈ normPath P ++ ('?' :: (q ++ '#' :: f)) := by
      rw [hre]
      simp
    have hsplitq := splitOnce_append '?' (normPath P) q hnp_quest
    have hqmem : '?' ∈ normPath P ++ '?' :: q := by simp
    rw [if_pos hqe, if_pos hfe]
    simp only [List.cons_append]
    simp [urlsplit, hA, hB, take_two_cons_cons, str_two_slashes, hbr, hfmem, hsplitf,
      hqmem, hsplitq]

theorem normPath_idem (P : Str) : normPath (normPath P) = normPath P := by
  unfold normPath
  by_cases hc : P ≠ [] ∧ P.take 1 ≠ str "/"
  · rw [if_pos hc]
    rw [if_neg (fun h => h.2 rfl)]
  · rw [if_neg hc, if_neg hc]

theorem urlunsplit_normPath (sch nl P q f : Str) (hnl : nl ≠ []) :
    urlunsplit sch nl (normPath P) q f = urlunsplit sch nl P q f := by
  have h : (if normPath P ≠ [] ∧ (normPath P).take 1 ≠ str "/" then '/' :: normPath P
            else normPath P)
      = (if P ≠ [] ∧ P.take 1 ≠ str "/" then '/' :: P else P) := normPath_idem P
  simp only [urlunsplit]
  rw [if_pos (Or.inl hnl), if_pos (Or.inl hnl), h]

theorem posixpath_join_nil (P : Str) : posixpath_join P [] = P := rfl

theorem posixpath_join_cons (P s : Str) (segs : List Str) :
    posixpath_join P (s :: segs) = posixpath_join (posixpath_join P [s]) segs := rfl

theorem validSegment_no_lead_slash (s : Str) (hs : ValidSegment s) : ¬(s.take 1 = str "/") := by
  obtain ⟨hne, hchars⟩ := hs
  cases s with
  | nil => exact absurd rfl hne
  | cons c t =>
    intro hc
    have hc1 : c = '/' := by
      have : ([c] : Str) = ['/'] := hc
      exact List.head_eq_of_cons_eq this
    exact (hchars c (List.mem_cons_self c t)).1 hc1

theorem posixpath_join_single (P s : Str) (hs : ValidSegment s) :
    posixpath_join P [s] =
      if P = [] ∨ P.getLast? = some '/' then P ++ s else P ++ '/' :: s := by
  show (if s.take 1 = str "/" then s
        else if P = [] ∨ P.getLast? = some '/' then P ++ s else P ++ '/' :: s) = _
  rw [if_neg (validSegment_no_lead_slash s hs)]

theorem posixpath_join_single_ne_nil (P s : Str) (hs : ValidSegment s) :
    posixpath_join P [s] ≠ [] := by
  rw [posixpath_join_single P s hs]
  by_cases hc : P = [] ∨ P.getLast? = some '/'
  · rw [if_pos hc]
    intro he
    exact hs.1 (List.append_eq_nil.mp he).2
  · rw [if_neg hc]
    intro he
    exact absurd (List.append_eq_nil.mp he).2 (by simp)

theorem posixpath_join_append :
    ∀ (segs : List Str), (∀ s ∈ segs, ValidSegment s) →
    ∀ (P : Str), P ≠ [] → ∃ t, posixpath_join P segs = P ++ t := by
  intro segs
  induction segs with
  | nil =>
    intro _ P _
    exact ⟨[], by rw [posixpath_join_nil, List.append_nil]⟩
  | cons s segs ih =>
    intro hsegs P hP
    have hs := hsegs s (List.mem_cons_self s segs)
    have hsegs' : ∀ x ∈ segs, ValidSegment x := fun x hx => hsegs x (List.mem_cons_of_mem s hx)
    rw [posixpath_join_cons, posixpath_join_single P s hs]
    by_cases hc : P = [] ∨ P.getLast? = some '/'
    · rw [if_pos hc]
      obtain ⟨t, ht⟩ := ih hsegs' (P ++ s) (fun he => hs.1 (List.append_eq_nil.mp he).2)
      exact ⟨s ++ t, by rw [ht, List.append_assoc]⟩
    · rw [if_neg hc]
      obtain ⟨t, ht⟩ := ih hsegs' (P ++ '/' :: s)
        (fun he => absurd (List.append_eq_nil.mp he).2 (by simp))
      exact ⟨'/' :: s ++ t, by rw [ht, List.append_assoc]⟩

theorem take_one_append (a t : Str) (ha : a ≠ []) : (a ++ t).take 1 = a.take 1 := by
  cases a with
  | nil => exact absurd rfl ha
  | cons c r => rfl

theorem posixpath_join_cons_slash :
    ∀ (segs : List Str), (∀ s ∈ segs, ValidSegment s) →
    ∀ (P : Str), P ≠ [] →
      posixpath_join ('/' :: P) segs = '/' :: posixpath_join P segs := by
  intro segs
  induction segs with
  | nil => intro _ P _; rfl
  | cons s segs ih =>
    intro hsegs P hP
    have hs := hsegs s (List.mem_cons_self s segs)
    have hsegs' : ∀ x ∈ segs, ValidSegment x := fun x hx => hsegs x (List.mem_cons_of_mem s hx)
    rw [posixpath_join_cons, posixpath_join_cons P s segs]
    rw [posixpath_join_single ('/' :: P) s hs, posixpath_join_single P s hs]
    have hlast : ('/' :: P).getLast? = P.getLast? := by
      cases P with
      | nil => exact absurd rfl hP
      | cons a t => exact List.getLast?_cons_cons
    by_cases hc : P.getLast? = some '/'
    · rw [if_pos (Or.inr (by rw [hlast]; exact hc)), if_pos (Or.inr hc), List.cons_append]
      exact ih hsegs' (P ++ s) (fun he => hs.1 (List.append_eq_nil.mp he).2)
    · have hc1 : ¬(('/' :: P) = [] ∨ ('/' :: P).getLast? = some '/') := by
        rintro (h | h)
        · exact List.noConfusion h
        · rw [hlast] at h
          exact hc h
      have hc2 : ¬(P = [] ∨ P.getLast? = some '/') := by
        rintro (h | h)
        · exact hP h
        · exact hc h
      rw [if_neg hc1, if_neg hc2, List.cons_append]
      exact ih hsegs' (P ++ '/' :: s)
        (fun he => absurd (List.append_eq_nil.mp he).2 (by simp))

theorem pathOk_join :
    ∀ (segs : List Str), (∀ s ∈ segs, ValidSegment s) →
    ∀ (P : Str), PathOk P → PathOk (posixpath_join P segs) := by
  intro segs
  induction segs with
  | nil => intro _ P hP; exact hP
  | cons s segs ih =>
    intro hsegs P hP
    have hs := hsegs s (List.mem_cons_self s segs)
    have hsegs' : ∀ x ∈ segs, ValidSegment x := fun x hx => hsegs x (List.mem_cons_of_mem s hx)
    rw [posixpath_join_cons]
    apply ih hsegs'
    rw [posixpath_join_single P s hs]
    by_cases hc : P = [] ∨ P.getLast? = some '/'
    · rw [if_pos hc]
      intro c hcm
      rcases List.mem_append.mp hcm with h | h
      · exact hP c h
      · exact ⟨(hs.2 c h).2.1, (hs.2 c h).2.2⟩
    · rw [if_neg hc]
      intro c hcm
      rcases List.mem_append.mp hcm with h | h
      · exact hP c h
      · rcases List.mem_cons.mp h with h | h
        · subst h
          exact ⟨by decide, by decide⟩
        · exact ⟨(hs.2 c h).2.1, (hs.2 c h).2.2⟩

theorem hasDup_of_no_slash : ∀ (s : Str), (∀ c ∈ s, c ≠ '/') → hasDoubleSlash s = false := by
  intro s
  induction s with
  | nil => intro _; rfl
  | cons x t ih =>
    intro hs
    cases t with
    | nil => rfl
    | cons y r =>
      have hx : ¬(x = '/') := hs x (List.mem_cons_self _ _)
      have ht := ih (fun c hc => hs c (List.mem_cons_of_mem x hc))
      simp [hasDoubleSlash, hx, ht]

theorem hasDup_append_no_slash :
    ∀ (a b : Str), hasDoubleSlash a = false → (∀ c ∈ b, c ≠ '/') →
      hasDoubleSlash (a ++ b) = false := by
  intro a
  induction a with
  | nil => intro b _ hb; exact hasDup_of_no_slash b hb
  | cons x a ih =>
    intro b ha hb
    cases a with
    | nil =>
      cases b with
      | nil => rfl
      | cons y r =>
        have hy : ¬(y = '/') := hb y (List.mem_cons_self _ _)
        have hr := hasDup_of_no_slash (y :: r) hb
        simp [hasDoubleSlash, hy]
        simp [hasDoubleSlash] at hr
        exact hr
    | cons z a' =>
      have ha' : (¬(x = '/') ∨ ¬(z = '/')) ∧ hasDoubleSlash (z :: a') = false := by
        simp [hasDoubleSlash] at ha
        tauto
      have hres := ih b ha'.2 hb
      show hasDoubleSlash (x :: z :: (a' ++ b)) = false
      simp [hasDoubleSlash]
      constructor
      · tauto
      · simp [hasDoubleSlash] at hres
        exact hres

theorem hasDup_slash_cons (s : Str) (hs : ∀ c ∈ s, c ≠ '/') :
    hasDoubleSlash ('/' :: s) = false := by
  cases s with
  | nil => rfl
  | cons y r =>
    have hy : ¬(y = '/') := hs y (List.mem_cons_self _ _)
    have hr := hasDup_of_no_slash (y :: r) hs
    simp [hasDoubleSlash, hy]
    simp [hasDoubleSlash] at hr
    exact hr

theorem hasDup_append_slash_cons :
    ∀ (a s : Str), hasDoubleSlash a = false → ¬(a.getLast? = some '/') →
      (∀ c ∈ s, c ≠ '/') → hasDoubleSlash (a ++ '/' :: s) = false := by
  intro a
  induction a with
  | nil =>
    intro s _ _ hs
    exact hasDup_slash_cons s hs
  | cons x a ih =>
    intro s ha hlast hs
    cases a with
    | nil =>
      have hx : ¬(x = '/') := fun hc => hlast (by rw [hc]; rfl)
      have hr := hasDup_slash_cons s hs
      show hasDoubleSlash (x :: '/' :: s) = false
      have hgoal : ((decide (x = '/') && decide ('/' = '/')) || hasDoubleSlash ('/' :: s))
          = false := by
        rw [Bool.or_eq_false_iff]
        exact ⟨by simp [hx], hr⟩
      exact hgoal
    | cons z a' =>
      have hform : ((decide (x = '/') && decide (z = '/')) || hasDoubleSlash (z :: a'))
          = false := ha
      have ha' : hasDoubleSlash (z :: a') = false := (Bool.or_eq_false_iff.mp hform).2
      have hx2 : (decide (x = '/') && decide (z = '/')) = false :=
        (Bool.or_eq_false_iff.mp hform).1
      have hlast' : ¬((z :: a').getLast? = some '/') := by
        rw [← List.getLast?_cons_cons (l := a') (a := x) (b := z)]
        exact hlast
      have hres := ih s ha' hlast' hs
      show hasDoubleSlash (x :: z :: (a' ++ '/' :: s)) = false
      have hgoal : ((decide (x = '/') && decide (z = '/'))
          || hasDoubleSlash (z :: (a' ++ '/' :: s))) = false := by
        rw [Bool.or_eq_false_iff]
        exact ⟨hx2, hres⟩
      exact hgoal

theorem hasDup_join :
    ∀ (segs : List Str), (∀ s ∈ segs, ValidSegment s) →
    ∀ (P : Str), hasDoubleSlash P = false → hasDoubleSlash (posixpath_join P segs) = false := by
  intro segs
  induction segs with
  | nil => intro _ P hP; exact hP
  | cons s segs ih =>
    intro hsegs P hP
    have hs := hsegs s (List.mem_cons_self s segs)
    have hsegs' : ∀ x ∈ segs, ValidSegment x := fun x hx => hsegs x (List.mem_cons_of_mem s hx)
    rw [posixpath_join_cons]
    apply ih hsegs'
    rw [posixpath_join_single P s hs]
    have hsno : ∀ c ∈ s, c ≠ '/' := fun c hc => (hs.2 c hc).1
    by_cases hc : P = [] ∨ P.getLast? = some '/'
    · rw [if_pos hc]
      exact hasDup_append_no_slash P s hP hsno
    · rw [if_neg hc]
      have hlast : ¬(P.getLast? = some '/') := fun h => hc (Or.inr h)
      exact hasDup_append_slash_cons P s hP hlast hsno

theorem hasDup_normPath (P : Str) (h : hasDoubleSlash P = false) :
    hasDoubleSlash (normPath P) = false := by
  unfold normPath
  by_cases hc : P ≠ [] ∧ P.take 1 ≠ str "/"
  · rw [if_pos hc]
    cases P with
    | nil => exact absurd rfl hc.1
    | cons c t =>
      have hcs : ¬(c = '/') := by
        intro he
        apply hc.2
        rw [he]
        rfl
      show hasDoubleSlash ('/' :: c :: t) = false
      have hgoal : ((decide ('/' = '/') && decide (c = '/')) || hasDoubleSlash (c :: t))
          = false := by
        rw [Bool.or_eq_false_iff]
        exact ⟨by simp [hcs], h⟩
      exact hgoal
  · rw [if_neg hc]
    exact h

theorem stepwise_eq_url_join (sch nl q f : Str)
    (hsch : SchemeOk sch) (hnl : NetlocOk nl) (hq : QueryOk q) :
    ∀ (segs : List Str), (∀ s ∈ segs, ValidSegment s) →
    ∀ (u p : Str), urlsplit u = .ok (sch, nl, p, q, f) → PathOk p →
      u = urlunsplit sch nl p q f →
      stepwise_join u segs = url_join u segs := by
  intro segs
  induction segs with
  | nil =>
    intro _ u p hsplit _ hcanon
    show Except.ok u = url_join u []
    simp only [url_join, hsplit, posixpath_join_nil]
    rw [hcanon]
  | cons s segs ih =>
    intro hsegs u p hsplit hp hcanon
    have hs := hsegs s (List.mem_cons_self s segs)
    have hsegs' : ∀ x ∈ segs, ValidSegment x := fun x hx => hsegs x (List.mem_cons_of_mem s hx)
    have hjoin1 : url_join u [s] = .ok (urlunsplit sch nl (posixpath_join p [s]) q f) := by
      simp only [url_join, hsplit]
    have hP1ne : posixpath_join p [s] ≠ [] := posixpath_join_single_ne_nil p s hs
    have hP1ok : PathOk (posixpath_join p [s]) := by
      apply pathOk_join [s] _ p hp
      intro x hx
      rcases List.mem_singleton.mp hx with rfl
      exact hs
    have hsplit1 : urlsplit (urlunsplit sch nl (posixpath_join p [s]) q f)
        = .ok (sch, nl, normPath (posixpath_join p [s]), q, f) :=
      urlsplit_urlunsplit sch nl (posixpath_join p [s]) q f ⟨hsch, hnl, hP1ok, hq⟩
    have hcanon1 : urlunsplit sch nl (posixpath_join p [s]) q f
        = urlunsplit sch nl (normPath (posixpath_join p [s])) q f :=
      (urlunsplit_normPath sch nl (posixpath_join p [s]) q f hnl.1).symm
    have hih := ih hsegs' (urlunsplit sch nl (posixpath_join p [s]) q f)
      (normPath (posixpath_join p [s])) hsplit1 (pathOk_normPath _ hP1ok) hcanon1
    show (match url_join u [s] with
          | Except.error e => (Except.error e : Except PyErr Str)
          | Except.ok u1 => stepwise_join u1 segs) = url_join u (s :: segs)
    rw [hjoin1]
    show stepwise_join (urlunsplit sch nl (posixpath_join p [s]) q f) segs
        = url_join u (s :: segs)
    rw [hih]
    have hlhs : url_join (urlunsplit sch nl (posixpath_join p [s]) q f) segs
        = .ok (urlunsplit sch nl (posixpath_join (normPath (posixpath_join p [s])) segs) q f) := by
      simp only [url_join, hsplit1]
    have hrhs : url_join u (s :: segs)
        = .ok (urlunsplit sch nl (posixpath_join p (s :: segs)) q f) := by
      simp only [url_join, hsplit]
    rw [hlhs, hrhs, posixpath_join_cons p s segs]
    by_cases hsl : (posixpath_join p [s]).take 1 = str "/"
    · have hid : normPath (posixpath_join p [s]) = posixpath_join p [s] := by
        unfold normPath
        rw [if_neg (fun h => h.2 hsl)]
      rw [hid]
    · have hnp1 : normPath (posixpath_join p [s]) = '/' :: posixpath_join p [s] := by
        unfold normPath
        rw [if_pos ⟨hP1ne, hsl⟩]
      rw [hnp1, posixpath_join_cons_slash segs hsegs' (posixpath_join p [s]) hP1ne]
      have hYne : posixpath_join (posixpath_join p [s]) segs ≠ [] := by
        obtain ⟨t, ht⟩ := posixpath_join_append segs hsegs' (posixpath_join p [s]) hP1ne
        rw [ht]
        intro he
        exact hP1ne (List.append_eq_nil.mp he).1
      have hYsl : ¬((posixpath_join (posixpath_join p [s]) segs).take 1 = str "/") := by
        obtain ⟨t, ht⟩ := posixpath_join_append segs hsegs' (posixpath_join p [s]) hP1ne
        rw [ht, take_one_append _ t hP1ne]
        exact hsl
      have hfold : ('/' :: posixpath_join (posixpath_join p [s]) segs)
          = normPath (posixpath_join (posixpath_join p [s]) segs) := by
        unfold normPath
        rw [if_pos ⟨hYne, hYsl⟩]
      rw [hfold, urlunsplit_normPath sch nl _ q f hnl.1]

/-- C6: for every valid base URL `u` (splitting into a well-formed scheme,
host, path and query, and written canonically) and every sequence of valid
path segments, joining the segments one at a time — as successive attribute
accesses or `id` calls do to `base_url`, each being one `url_join` with one
segment — yields the same `base_url` as joining them all at once; the scheme,
host, query and fragment of `u` are preserved in the result; and no double
path separator is introduced (regardless of a trailing slash in `u`'s path). -/
theorem path_composition (u : Str) (segs : List Str) (sch nl p q f : Str)
    (hsplit : urlsplit u = .ok (sch, nl, p, q, f))
    (hv : ValidParts sch nl p q)
    (hcanon : u = urlunsplit sch nl p q f)
    (hsegs : ∀ s ∈ segs, ValidSegment s) :
    stepwise_join u segs = url_join u segs ∧
    url_join u segs = .ok (urlunsplit sch nl (posixpath_join p segs) q f) ∧
    urlsplit (urlunsplit sch nl (posixpath_join p segs) q f)
      = .ok (sch, nl, normPath (posixpath_join p segs), q, f) ∧
    (hasDoubleSlash p = false →
      hasDoubleSlash (normPath (posixpath_join p segs)) = false) := by
  obtain ⟨hsch, hnl, hp, hq⟩ := hv
  refine ⟨?_, ?_, ?_, ?_⟩
  · exact stepwise_eq_url_join sch nl q f hsch hnl hq segs hsegs u p hsplit hp hcanon
  · simp only [url_join, hsplit]
  · exact urlsplit_urlunsplit sch nl _ q f ⟨hsch, hnl, pathOk_join segs hsegs p hp, hq⟩
  · intro hdup
    exact hasDup_normPath _ (hasDup_join segs hsegs p hdup)

/-- Witness for C6: two segments joined stepwise and all at once on a
concrete base URL, both giving `http://example.com/api/items/42`. -/
theorem path_composition_witness :
    stepwise_join (str "http://example.com/api") [str "items", str "42"]
      = url_join (str "http://example.com/api") [str "items", str "42"] ∧
    url_join (str "http://example.com/api") [str "items", str "42"]
      = .ok (str "http://example.com/api/items/42") := by
  have h := path_composition (str "http://example.com/api") [str "items", str "42"]
    (str "http") (str "example.com") (str "/api") [] []
    (by decide) (by unfold ValidParts SchemeOk NetlocOk PathOk QueryOk; decide)
    (by decide) (by unfold ValidSegment; decide)
  exact ⟨h.1, h.2.1.trans (by decide)⟩
